import Mathlib

/-!
Verification of the Schedule-Editor data-normalization and grid-synthesis
layer against its natural-language specification.

The embedding translates the two implementation files (the Excel service
with the normalizers, importer and exporter, and the application component
with the slot deriver and the drag-and-drop placement logic) into
executable Lean definitions.

Modelling conventions, used throughout:
* A spreadsheet cell value (dynamically typed in the source) is a closed
  tagged union over text, number, date-time and empty, as the spec's design
  notes prescribe.
* JavaScript numbers are modelled as exact rationals.  Every JS number is a
  dyadic rational, and the arithmetic the source performs on them
  (comparisons, multiplication by 1440, rounding, floor) is exact on the
  values the source cares about.  The arithmetic is implemented on the
  numerator/denominator pair directly so that the kernel can evaluate it.
* JS parseInt returns an integer or NaN; this is modelled as an Option Int
  with none standing for NaN.  NaN propagation through the remainder
  operator and string rendering of NaN are modelled explicitly.
* String algorithms are carried out on the underlying character lists so
  that every definition is structural and kernel-evaluable.
-/

namespace ScheduleEditor

/-! ## JavaScript string and number primitives -/

/-- Left-to-right containment test for a character pattern at the head. -/
def startsWithL : List Char → List Char → Bool
  | [], _ => true
  | _ :: _, [] => false
  | p :: ps, c :: cs => p = c && startsWithL ps cs

/-- Substring containment on character lists, modelling String.includes. -/
def hasSub (pat : List Char) : List Char → Bool
  | [] => startsWithL pat []
  | c :: cs => startsWithL pat (c :: cs) || hasSub pat cs

/-- JS String.prototype.trim, on the character list (ASCII whitespace). -/
def trimL (cs : List Char) : List Char :=
  ((cs.dropWhile Char.isWhitespace).reverse.dropWhile Char.isWhitespace).reverse

/-- JS String.prototype.padStart with a pad character. -/
def padStartL (n : Nat) (c : Char) (cs : List Char) : List Char :=
  if n ≤ cs.length then cs else List.replicate (n - cs.length) c ++ cs

/-- JS String.prototype.slice with non-negative bounds. -/
def sliceL (a b : Nat) (cs : List Char) : List Char :=
  (cs.take b).drop a

/-- JS String.prototype.split on a single-character separator. -/
def splitOnCharL (sep : Char) : List Char → List (List Char)
  | [] => [[]]
  | c :: cs =>
    let r := splitOnCharL sep cs
    if c = sep then [] :: r
    else
      match r with
      | [] => [[c]]
      | g :: gs => (c :: g) :: gs

/-- ASCII lower-casing of one character, as toLowerCase acts on our data. -/
def jsLowerChar (c : Char) : Char :=
  if 'A' ≤ c ∧ c ≤ 'Z' then Char.ofNat (c.toNat + 32) else c

/-- Lower-casing of a string.  The host's toLowerCase performs full
Unicode case folding; this model folds the ASCII range, on which the two
agree exactly.  Statements that rest on a case-insensitive comparison are
therefore confined, by hypothesis, to ASCII operands. -/
def lowerStr (s : String) : String :=
  String.mk (s.data.map jsLowerChar)

/-- Every character of the string is ASCII: the domain on which the
modelled case folding coincides with the host's Unicode folding. -/
def asciiStr (s : String) : Bool :=
  s.data.all (fun c => c.toNat < 128)

/-- Numeric value of a non-empty run of decimal digit characters. -/
def digitsVal (cs : List Char) : Nat :=
  cs.foldl (fun a c => a * 10 + (c.toNat - 48)) 0

/-- JS parseInt(s, 10): skip leading whitespace, optional sign, then the
longest digit prefix; none models NaN (no digits found). -/
def jsParseIntL (cs : List Char) : Option Int :=
  let cs := cs.dropWhile Char.isWhitespace
  match cs with
  | '-' :: rest =>
    let ds := rest.takeWhile Char.isDigit
    if ds.isEmpty then none else some (-(digitsVal ds : Int))
  | '+' :: rest =>
    let ds := rest.takeWhile Char.isDigit
    if ds.isEmpty then none else some (digitsVal ds : Int)
  | rest =>
    let ds := rest.takeWhile Char.isDigit
    if ds.isEmpty then none else some (digitsVal ds : Int)

/-- JS parseInt on a string. -/
def jsParseIntS (s : String) : Option Int :=
  jsParseIntL s.data

/-- Rendering of a JS number that is an integer (String(n)). -/
def intToStr (i : Int) : String :=
  toString i

/-- Rendering of a possibly-NaN JS integer value; String(NaN) is "NaN". -/
def jsNumStrOpt : Option Int → String
  | none => "NaN"
  | some i => intToStr i

/-- JS remainder on a possibly-NaN integer value: the remainder operator
truncates toward zero and propagates NaN. -/
def jsModOpt (x : Option Int) (m : Int) : Option Int :=
  x.map (fun i => Int.tmod i m)

/-! ## JS numbers as exact rationals

The source performs these operations on cell values of number type:
comparison with 0, 1 and 30000, multiplication by 1440 followed by
Math.round, Math.floor, the remainder operator, and String().  They are
implemented on the numerator/denominator pair of the rational. -/

/-- The number equals 0 (the only falsy number arising in the model). -/
def ratIsZero (q : Rat) : Bool := q.num = 0

/-- The comparison 0 <= val. -/
def ratNonneg (q : Rat) : Bool := 0 ≤ q.num

/-- The comparison val < 1. -/
def ratLtOne (q : Rat) : Bool := q.num < q.den

/-- The comparison val > 30000 (date-serial threshold). -/
def ratGtThreshold (q : Rat) : Bool := 30000 * (q.den : Int) < q.num

/-- The number is an integer. -/
def ratIsInt (q : Rat) : Bool := q.den = 1

/-- Math.round(val * 1440): floor(1440 q + 1/2), exact on dyadic values. -/
def roundTimes1440 (q : Rat) : Int :=
  Int.fdiv (2880 * q.num + q.den) (2 * q.den)

/-- Math.floor(q). -/
def ratFloor (q : Rat) : Int :=
  Int.fdiv q.num q.den

/-- Decimal digit character. -/
def digitChar (n : Nat) : Char :=
  Char.ofNat (48 + n)

/-- Fractional decimal digits of r/den, with fuel.  JS prints the shortest
round-trip decimal of the IEEE double; on short terminating decimals (the
only non-integer renderings the source can meet in the claims) the two
agree, and the fuel of 40 digits is never exhausted on them. -/
def fracDigits : Nat → Nat → Nat → List Char
  | 0, _, _ => []
  | fuel + 1, r, den =>
    if r = 0 then []
    else digitChar (r * 10 / den) :: fracDigits fuel (r * 10 % den) den

/-- JS String(val) for a number value. -/
def jsNumToString (q : Rat) : String :=
  if q.den = 1 then intToStr q.num
  else
    let sign := if q.num < 0 then "-" else ""
    let ip := q.num.natAbs / q.den
    let r := q.num.natAbs % q.den
    sign ++ Nat.repr ip ++ "." ++ String.mk (fracDigits 40 r q.den)

/-! ## Cell values

A date-time cell is recorded through the observations the source makes of
a JS Date: its local-time hour and minute (getHours/getMinutes) and its
UTC calendar date (toISOString).  The source never inspects anything
else of a Date. -/

/-- The observations the source makes of a JS Date value. -/
structure DateVal where
  hours : Nat
  minutes : Nat
  uy : Nat
  um : Nat
  ud : Nat
deriving DecidableEq, Repr

/-- A dynamically-typed spreadsheet cell value: the closed tagged union
over empty, text, number and date-time prescribed by the spec. -/
inductive CellValue where
  | empty
  | str (s : String)
  | num (q : Rat)
  | date (d : DateVal)
deriving DecidableEq

/-- The check val === undefined || val === null || val === ''. -/
def isEmptyInput : CellValue → Bool
  | .empty => true
  | .str s => s = ""
  | _ => false

/-- JS truthiness test (undefined, null, '' and 0 are the falsy cell
values arising in the model; NaN cells do not occur). -/
def jsFalsy : CellValue → Bool
  | .empty => true
  | .str s => s = ""
  | .num q => ratIsZero q
  | .date _ => false

/-- JS String(val) on a cell value.  String(undefined) is "undefined".
For a Date the host renders an implementation-defined locale string; the
source only lower-cases it and searches it for the substrings "slot",
"date" and "squad", none of which the host rendering contains, and takes
its first digit run; it is modelled by an ISO-like rendering that agrees
on those observations up to the choice of first digit run, which no claim
exercises on date cells. -/
def jsToString : CellValue → String
  | .empty => "undefined"
  | .str s => s
  | .num q => jsNumToString q
  | .date d =>
    String.mk (Nat.repr d.uy).data ++ "-" ++ Nat.repr d.um ++ "-" ++ Nat.repr d.ud

/-! ## TimeNormalizer -/

/-- Earliest case-insensitive occurrence of "am" or "pm"; some true means
the match was "pm". -/
def findAmPm : List Char → Option Bool
  | [] => none
  | c :: rest =>
    match rest with
    | [] => none
    | d :: _ =>
      if jsLowerChar c = 'a' ∧ jsLowerChar d = 'm' then some false
      else if jsLowerChar c = 'p' ∧ jsLowerChar d = 'm' then some true
      else findAmPm rest

/-- The hour/minute pair a string input derives before final wrap-around:
trim, detect an am/pm marker, strip ASCII letters, split on ':', trim and
drop empty parts, then parse as HH:mm (two or more parts), as a padded
HHmm (one part), or default to zero (no parts); finally apply the am/pm
adjustment.  NaN values are none. -/
def timeHMStr (s : String) : Option Int × Option Int :=
  let str := trimL s.data
  let ampm := findAmPm str
  let parts := ((splitOnCharL ':' (str.filter (fun c => !c.isAlpha))).map trimL).filter
    (fun p => !p.isEmpty)
  let hm :=
    match parts with
    | p0 :: p1 :: _ => (jsParseIntL p0, jsParseIntL p1)
    | [p0] =>
      let t := padStartL 4 '0' p0
      (jsParseIntL (sliceL 0 2 t), jsParseIntL (sliceL 2 4 t))
    | [] => (some 0, some 0)
  match ampm with
  | none => hm
  | some isPM =>
    let h :=
      match hm.1 with
      | none => none
      | some hv =>
        if isPM then (if hv < 12 then some (hv + 12) else some hv)
        else (if hv = 12 then some 0 else some hv)
    (h, hm.2)

/-- The hour/minute pair a non-empty input derives before the final
wrap-around, per input variant of the source. -/
def timeHM : CellValue → Option Int × Option Int
  | .empty => (some 0, some 0)
  | .date d => (some (d.hours : Int), some (d.minutes : Int))
  | .num q =>
    if ratLtOne q ∧ ratNonneg q then
      let tm := roundTimes1440 q
      (some (Int.fdiv tm 60), some (Int.tmod tm 60))
    else
      let t := padStartL 4 '0' (jsNumToString q).data
      (jsParseIntL (sliceL 0 2 t), jsParseIntL (sliceL 2 4 t))
  | .str s => timeHMStr s

/-- Final wrap-around and rendering: hours mod 24 and minutes mod 60,
each zero-padded to two digits and concatenated. -/
def finishTime (hm : Option Int × Option Int) : String :=
  String.mk (padStartL 2 '0' (jsNumStrOpt (jsModOpt hm.1 24)).data) ++
    String.mk (padStartL 2 '0' (jsNumStrOpt (jsModOpt hm.2 60)).data)

/-- normalizeTime: empty input yields "", otherwise the derived
hour/minute pair is wrapped and rendered as 4-digit railway time. -/
def normalizeTime (val : CellValue) : String :=
  if isEmptyInput val then "" else finishTime (timeHM val)

/-- A valid 4-digit railway time: four decimal digits with hour at most
23 and minute at most 59. -/
def validRailway (s : String) : Bool :=
  match s.data with
  | [a, b, c, d] =>
    a.isDigit && b.isDigit && c.isDigit && d.isDigit &&
      ((a.toNat - 48) * 10 + (b.toNat - 48) ≤ 23) &&
      ((c.toNat - 48) * 10 + (d.toNat - 48) ≤ 59)
  | _ => false

/-! ## DateNormalizer -/

/-- Zero-padding of a number rendering to a given width. -/
def padNum (w : Nat) (n : Nat) : String :=
  String.mk (padStartL w '0' (Nat.repr n).data)

/-- Calendar date from a count of days since 1970-01-01 (proleptic
Gregorian), the standard civil-date decoding. -/
def civilFromDays (z0 : Int) : Int × Nat × Nat :=
  let z := z0 + 719468
  let era := Int.fdiv z 146097
  let doe := (z - era * 146097).toNat
  let yoe := (doe - doe / 1460 + doe / 36524 - doe / 146096) / 365
  let y := (yoe : Int) + era * 400
  let doy := doe - (365 * yoe + yoe / 4 - yoe / 100)
  let mp := (5 * doy + 2) / 153
  let d := doy - (153 * mp + 2) / 5 + 1
  let m := if mp < 10 then mp + 3 else mp - 9
  (if m ≤ 2 then y + 1 else y, m, d)

/-- Date-serial decoding of the sheet library for serials above the
threshold: whole days counted from 1899-12-30, the standard 1900 date
system for serials past the leap-year quirk.  The year is rendered
unpadded and month and day zero-padded to two digits, as the source
interpolates them. -/
def serialDateStr (q : Rat) : String :=
  let days := ratFloor q - 25569
  let ymd := civilFromDays days
  toString ymd.1 ++ "-" ++ padNum 2 ymd.2.1 ++ "-" ++ padNum 2 ymd.2.2

/-- Rendering of a UTC calendar date as the date part of toISOString. -/
def isoDateStr (y m d : Nat) : String :=
  padNum 4 y ++ "-" ++ padNum 2 m ++ "-" ++ padNum 2 d

/-- The test of the pattern of four digits, dash, two digits, dash, two
digits used by the source to recognise an already-canonical date. -/
def matchYMD : List Char → Bool
  | [a, b, c, d, e, f, g, h, i, j] =>
    a.isDigit && b.isDigit && c.isDigit && d.isDigit && e = '-' &&
      f.isDigit && g.isDigit && h = '-' && i.isDigit && j.isDigit
  | _ => false

/-- Number of days in a month of the proleptic Gregorian calendar. -/
def daysInMonth (y m : Nat) : Nat :=
  if m = 2 then (if y % 4 = 0 ∧ (y % 100 ≠ 0 ∨ y % 400 = 0) then 29 else 28)
  else if m = 4 ∨ m = 6 ∨ m = 9 ∨ m = 11 then 30
  else 31

/-- Modelled from the spec: the generic calendar parsing the source
delegates to the host (the Date constructor on a string), which is absent
from the repository.  The ECMA-mandated date-time string format is
modelled for its zone-less calendar forms (a 4-digit year, optionally
dash month, optionally dash day, each range-checked), taken as a UTC
date; implementation-defined formats and forms carrying a time of day are
treated as unparseable. -/
def jsDateParse : List Char → Option (Nat × Nat × Nat)
  | [a, b, c, d] =>
    if a.isDigit && b.isDigit && c.isDigit && d.isDigit then
      some (digitsVal [a, b, c, d], 1, 1)
    else none
  | [a, b, c, d, '-', e, f] =>
    if a.isDigit && b.isDigit && c.isDigit && d.isDigit && e.isDigit && f.isDigit then
      let m := digitsVal [e, f]
      if 1 ≤ m ∧ m ≤ 12 then some (digitsVal [a, b, c, d], m, 1) else none
    else none
  | [a, b, c, d, '-', e, f, '-', g, h] =>
    if a.isDigit && b.isDigit && c.isDigit && d.isDigit && e.isDigit && f.isDigit &&
        g.isDigit && h.isDigit then
      let y := digitsVal [a, b, c, d]
      let m := digitsVal [e, f]
      let dd := digitsVal [g, h]
      if 1 ≤ m ∧ m ≤ 12 ∧ 1 ≤ dd ∧ dd ≤ daysInMonth y m then some (y, m, dd) else none
    else none
  | _ => none

/-- The string path of normalizeDate: trim, return already-canonical
dates unchanged, otherwise attempt generic calendar parsing and fall back
to the trimmed original. -/
def genericDatePath (s : String) : String :=
  let cs := trimL s.data
  if matchYMD cs then String.mk cs
  else
    match jsDateParse cs with
    | some ymd => isoDateStr ymd.1 ymd.2.1 ymd.2.2
    | none => String.mk cs

/-- normalizeDate: falsy input yields "", a number above the serial
threshold decodes as a date serial, a date-time takes its UTC calendar
date, and any other value goes through the string path. -/
def normalizeDate (val : CellValue) : String :=
  if jsFalsy val then ""
  else
    match val with
    | .num q => if ratGtThreshold q then serialDateStr q else genericDatePath (jsNumToString q)
    | .date d => isoDateStr d.uy d.um d.ud
    | .str s => genericDatePath s
    | .empty => ""

/-! ## SquadLabelExtractor -/

/-- First maximal run of decimal digits of a character list, the match of
a one-or-more-digits pattern. -/
def firstDigitRun : List Char → Option (List Char)
  | [] => none
  | c :: rest =>
    if c.isDigit then some (c :: rest.takeWhile Char.isDigit)
    else firstDigitRun rest

/-- extractSquadFromA1: empty input yields "", otherwise the first digit
run of the trimmed string form, or the whole trimmed string when it has
no digits. -/
def extractSquadFromA1 (val : CellValue) : String :=
  if isEmptyInput val then ""
  else
    let cs := trimL (jsToString val).data
    match firstDigitRun cs with
    | some run => String.mk run
    | none => String.mk cs

/-! ## Session model and ScheduleImporter -/

/-- One scheduled course occurrence, as the importer constructs it.  The
source draws a random 9-character identifier whose only requirement is
uniqueness within the collection (spec design notes); it is modelled as a
sequential counter value.  squad_number may arrive as text or number
upstream but every producer stores and every consumer compares its string
form, so the stringified value is carried. -/
structure Session where
  id : Nat
  squad_number : String
  date : String
  «from» : String
  «to» : String
  course_id : String
  lu_id : String
  mentor_id : String
deriving DecidableEq, Repr

/-- A raw sheet row: the cell array of one spreadsheet row. -/
def Row := List CellValue

/-- Indexing a row, with absent cells reading as undefined. -/
def cellAt (r : Row) (i : Nat) : CellValue :=
  r.getD i .empty

/-- Length of a row. -/
def rowLen (r : Row) : Nat :=
  List.length r

/-- The repeated-header test: the first cell's string form, lower-cased,
contains "slot", "date" or "squad". -/
def headerSkip (r : Row) : Bool :=
  let col1 := lowerStr (if jsFalsy (cellAt r 0) then "" else jsToString (cellAt r 0))
  hasSub "slot".data col1.data || hasSub "date".data col1.data ||
    hasSub "squad".data col1.data

/-- Construction of the Session for one contributing row: course falls
back to a fixed label, the learning-unit field stays empty when not
provided, and the mentor falls back to a fixed label. -/
def rowSession (squad : String) (n : Nat) (dateS fromT toT : String) (r : Row) : Session :=
  { id := n
    squad_number := squad
    date := dateS
    «from» := fromT
    «to» := toT
    course_id := if jsFalsy (cellAt r 4) then "Untitled Course" else jsToString (cellAt r 4)
    lu_id := if jsFalsy (cellAt r 5) then "" else jsToString (cellAt r 5)
    mentor_id := if jsFalsy (cellAt r 6) then "Unassigned" else jsToString (cellAt r 6) }

/-- The data-row loop of the importer for one sheet: skip short rows and
repeated-header rows; resolve the date with fallback to the last seen
date; resolve the times; construct a Session only when both the resolved
start time and the resolved date are non-empty, and only then advance the
last-seen-date tracker. -/
def importRows (squad : String) : List Row → String → Nat → List Session
  | [], _, _ => []
  | r :: rest, last, n =>
    if rowLen r < 3 then importRows squad rest last n
    else if headerSkip r then importRows squad rest last n
    else
      let dRaw := normalizeDate (cellAt r 1)
      let dateS := if dRaw = "" then last else dRaw
      let fromT := normalizeTime (cellAt r 2)
      if fromT ≠ "" ∧ dateS ≠ "" then
        rowSession squad n dateS fromT (normalizeTime (cellAt r 3)) r ::
          importRows squad rest dateS (n + 1)
      else importRows squad rest last n

/-- The value of the last-seen-date tracker after the importer has
processed a list of rows, mirroring the tracker threading of importRows:
it advances exactly when a Session is constructed. -/
def trackerRows : List Row → String → String
  | [], last => last
  | r :: rest, last =>
    if rowLen r < 3 then trackerRows rest last
    else if headerSkip r then trackerRows rest last
    else
      let dRaw := normalizeDate (cellAt r 1)
      let dateS := if dRaw = "" then last else dRaw
      if normalizeTime (cellAt r 2) ≠ "" ∧ dateS ≠ "" then trackerRows rest dateS
      else trackerRows rest last

/-- Import of one sheet: an empty sheet or a sheet whose first cell
yields no squad label contributes nothing; otherwise the data rows are
walked with an initially empty last-seen date. -/
def parseSheet (rows : List Row) (n : Nat) : List Session :=
  match rows with
  | [] => []
  | r0 :: rest =>
    let squad := extractSquadFromA1 (cellAt r0 0)
    if squad = "" then [] else importRows squad rest "" n

/-- Import of a workbook: sheets are independent, each starting a fresh
squad label and last-seen date, in sheet order. -/
def importSheets : List (List Row) → Nat → List Session
  | [], _ => []
  | sh :: rest, n =>
    let ss := parseSheet sh n
    ss ++ importSheets rest (n + ss.length)

/-- parseExcelFile, modelled from the decoded workbook onward: the flat
Session collection of all sheets. -/
def parseExcelFile (sheets : List (List Row)) : List Session :=
  importSheets sheets 0

/-- Lexicographic strict comparison of character lists.  The source
compares dates with localeCompare, whose collation is locale-defined on
arbitrary strings; on canonical dates — equal-length strings of decimal
digits and dashes with the dashes at fixed positions — every collation
compares the digit sequences position by position with ascending digit
weights, which coincides with this ordinal order.  Statements about the
date order are therefore confined, by hypothesis, to canonical dates. -/
def strLtL : List Char → List Char → Bool
  | [], [] => false
  | [], _ :: _ => true
  | _ :: _, [] => false
  | a :: as, b :: bs => if a < b then true else if b < a then false else strLtL as bs

/-! ## A stable sort

The host's array sort is stable, and for a consistent comparator a stable
sort's output is uniquely determined by the comparator and the input
order, so any stable sorting algorithm models it; a structural insertion
sort keeps every definition kernel-evaluable. -/

/-- Stable insertion of one element: it lands before the first element it
compares less-or-equal to. -/
def jsSortInsert (le : α → α → Bool) (x : α) : List α → List α
  | [] => [x]
  | y :: ys => if le x y then x :: y :: ys else y :: jsSortInsert le x ys

/-- Stable sort by a boolean comparator. -/
def jsSort (le : α → α → Bool) : List α → List α
  | [] => []
  | x :: xs => jsSortInsert le x (jsSort le xs)

/-! ## SlotDeriver -/

/-- One grid column: a from/to pair of railway times. -/
structure SlotDefinition where
  «from» : String
  «to» : String
deriving DecidableEq, Repr

/-- The fixed default slots used when no slot can be derived. -/
def defaultSlots : List SlotDefinition :=
  [⟨"0830", "1030"⟩, ⟨"1030", "1230"⟩, ⟨"1330", "1530"⟩, ⟨"1530", "1730"⟩]

/-- Insertion-ordered map update, as a JS Map set: an existing key keeps
its position and takes the new value, a new key is appended. -/
def slotMapInsert (k v : String) : List (String × String) → List (String × String)
  | [] => [(k, v)]
  | (k', v') :: rest =>
    if k' = k then (k, v) :: rest else (k', v') :: slotMapInsert k v rest

/-- The slot map built over the session collection: every session whose
from and to are both non-empty writes its pair, later sessions
overwriting earlier values of the same key. -/
def buildSlotMapAux : List Session → List (String × String) → List (String × String)
  | [], m => m
  | s :: rest, m =>
    buildSlotMapAux rest
      (if s.«from» ≠ "" ∧ s.«to» ≠ "" then slotMapInsert s.«from» s.«to» m else m)

/-- The slot map of a session collection. -/
def buildSlotMap (sessions : List Session) : List (String × String) :=
  buildSlotMapAux sessions []

/-- The numeric sort order on slot keys: parseInt on both and compare.
A key that fails to parse gives the comparator NaN, on which the host
sort order is unspecified; the ordering theorems assume parseable keys. -/
def slotLE (a b : String) : Bool :=
  match jsParseIntS a, jsParseIntS b with
  | some x, some y => x ≤ y
  | _, _ => true

/-- dynamicTimeSlots: the default slots when the map is empty, otherwise
one SlotDefinition per key in numeric key order, each carrying the mapped
to value (the falsy fallback of the source can only fire into the same
empty string). -/
def dynamicTimeSlots (sessions : List Session) : List SlotDefinition :=
  let m := buildSlotMap sessions
  if m.length = 0 then defaultSlots
  else
    (jsSort slotLE (m.map Prod.fst)).map
      (fun k => ⟨k, (m.lookup k).getD ""⟩)

/-! ## PlacementEngine -/

/-- The two UI-owned collections: the placed set (sessions on the grid)
and the staged set (the parking lot). -/
structure AppState where
  sessions : List Session
  parkingLot : List Session
deriving DecidableEq, Repr

/-- Where a drag gesture started. -/
inductive DragSource where
  | timetable
  | parking
deriving DecidableEq, Repr

/-- The record a drop onto the timetable constructs: the dragged session
with the focused squad, the target date and the target slot's times. -/
def updatedSession (ds : Session) (selectedSquad targetDate : String)
    (targetSlot : SlotDefinition) : Session :=
  { ds with
    squad_number := selectedSquad
    date := targetDate
    «from» := targetSlot.«from»
    «to» := targetSlot.«to» }

/-- Drop onto a timetable cell: from the parking lot, the dragged id is
removed there and the updated record appended to the placed set; from the
timetable, every record of that id is replaced in place. -/
def onDropToTimetable (st : AppState) (ds : Session) (source : DragSource)
    (selectedSquad targetDate : String) (targetSlot : SlotDefinition) : AppState :=
  let u := updatedSession ds selectedSquad targetDate targetSlot
  match source with
  | .parking =>
    { sessions := st.sessions ++ [u]
      parkingLot := st.parkingLot.filter (fun s => s.id ≠ ds.id) }
  | .timetable =>
    { sessions := st.sessions.map (fun s => if s.id = ds.id then u else s)
      parkingLot := st.parkingLot }

/-- Drop onto the parking lot: only a drag that started on the timetable
moves its session, unmodified, from the placed set to the staged set. -/
def onDropToParking (st : AppState) (ds : Session) (source : DragSource) : AppState :=
  match source with
  | .timetable =>
    { sessions := st.sessions.filter (fun s => s.id ≠ ds.id)
      parkingLot := st.parkingLot ++ [ds] }
  | .parking => st

/-- The discard button of a parking-lot card: the session is removed from
the staged set permanently. -/
def discardFromParking (st : AppState) (sid : Nat) : AppState :=
  { sessions := st.sessions
    parkingLot := st.parkingLot.filter (fun s => s.id ≠ sid) }

/-! ## ScheduleExporter -/

/-- The squad selector as the export entry receives it: text or number. -/
inductive SquadId where
  | strId (s : String)
  | numId (q : Rat)
deriving DecidableEq

/-- JS String() on the squad selector. -/
def SquadId.toJSString : SquadId → String
  | .strId s => s
  | .numId q => jsNumToString q

/-- The export filter: sessions whose squad number, stringified and
lower-cased, equals the stringified lower-cased squad selector. -/
def exportFilter (sessions : List Session) (squadId : SquadId) : List Session :=
  sessions.filter (fun s => lowerStr s.squad_number = lowerStr squadId.toJSString)

/-- parseInt of a session's from field. -/
def fromKey (s : Session) : Option Int :=
  jsParseIntS s.«from»

/-- The export sort order: unequal dates compare by the source's
localeCompare, modelled by the ordinal strLtL, which is faithful on
canonical dates only (see strLtL); equal dates compare by parseInt of
from.  A from that fails to parse gives the source's comparator NaN, on
which the host sort order is unspecified.  The ordering theorem is
therefore stated under two hypotheses: every filtered session's from
parses as an integer, and every filtered session's date is canonical. -/
def sessLE (a b : Session) : Bool :=
  if a.date = b.date then
    match fromKey a, fromKey b with
    | some x, some y => x ≤ y
    | _, _ => true
  else strLtL a.date.data b.date.data

/-- The sorted copy the exporter works on. -/
def sortExport (sessions : List Session) (squadId : SquadId) : List Session :=
  jsSort sessLE (exportFilter sessions squadId)

/-- One serialized data row of the export sheet. -/
structure ExportRow where
  slot : Nat
  date : String
  «from» : String
  «to» : String
  course_id : String
  lu_id : String
  mentor_id : String
deriving DecidableEq, Repr

/-- The per-day renumbering pass: the counter restarts at 1 when the date
changes from the running date and increments otherwise, threading the
running date and counter exactly as the source's two mutable variables. -/
def assignSlots : List Session → String → Nat → List ExportRow
  | [], _, _ => []
  | s :: rest, curDate, ctr =>
    let c := if s.date = curDate then ctr + 1 else 1
    ⟨c, s.date, s.«from», s.«to», s.course_id, s.lu_id, s.mentor_id⟩ ::
      assignSlots rest s.date c

/-- The data rows of the export sheet for a squad. -/
def exportDataRows (sessions : List Session) (squadId : SquadId) : List ExportRow :=
  assignSlots (sortExport sessions squadId) "" 0

/-- A serialized export row as a cell array. -/
def exportRowCells (r : ExportRow) : List CellValue :=
  [.num (r.slot : Rat), .str r.date, .str r.«from», .str r.«to»,
    .str r.course_id, .str r.lu_id, .str r.mentor_id]

/-- The squad selector as a cell of the output sheet. -/
def squadIdCell : SquadId → CellValue
  | .strId s => .str s
  | .numId q => .num q

/-- The cell grid handed to the sheet writer: the one-cell squad header
row, the seven fixed lowercase column headers, then the data rows. -/
def exportToExcel (sessions : List Session) (squadId : SquadId) : List (List CellValue) :=
  [squadIdCell squadId] ::
    ["slot_number", "date", "from", "to", "course_id", "lu_id", "mentor_id"].map CellValue.str ::
    (exportDataRows sessions squadId).map exportRowCells

/-! ## A store model for the export frame property

The frame claim speaks about mutation of the caller's array, so the
arrays touched by the export are given explicit references into a store;
the body allocates a fresh array for the filter result, spreads it into a
second fresh array, and sorts that copy in place. -/

/-- A store of session arrays; a reference is an index. -/
structure Store where
  arrs : List (List Session)
deriving DecidableEq, Repr

/-- Dereference. -/
def Store.read (st : Store) (r : Nat) : List Session :=
  st.arrs.getD r []

/-- Allocation of a fresh array. -/
def Store.alloc (st : Store) (v : List Session) : Store × Nat :=
  (⟨st.arrs ++ [v]⟩, st.arrs.length)

/-- In-place update of an array. -/
def Store.write (st : Store) (r : Nat) (v : List Session) : Store :=
  ⟨st.arrs.set r v⟩

/-- The export body over the store: filter allocates, the spread
allocates a copy, sort mutates the copy in place, and the sheet cells are
produced from the sorted copy. -/
def exportToExcelSt (st : Store) (r : Nat) (squadId : SquadId) :
    Store × List (List CellValue) :=
  let a1 := st.alloc ((st.read r).filter
    (fun s => lowerStr s.squad_number = lowerStr squadId.toJSString))
  let a2 := a1.1.alloc (a1.1.read a1.2)
  let st3 := a2.1.write a2.2 (jsSort sessLE (a2.1.read a2.2))
  (st3,
    [squadIdCell squadId] ::
      ["slot_number", "date", "from", "to", "course_id", "lu_id", "mentor_id"].map CellValue.str ::
      (assignSlots (st3.read a2.2) "" 0).map exportRowCells)

/-! ## Helper lemmas -/

/-- A valid two-digit hour chunk: two digits reading at most 23. -/
def hourChunkOk (cs : List Char) : Bool :=
  match cs with
  | [a, b] => a.isDigit && b.isDigit && ((a.toNat - 48) * 10 + (b.toNat - 48) ≤ 23)
  | _ => false

/-- A valid two-digit minute chunk: two digits reading at most 59. -/
def minChunkOk (cs : List Char) : Bool :=
  match cs with
  | [a, b] => a.isDigit && b.isDigit && ((a.toNat - 48) * 10 + (b.toNat - 48) ≤ 59)
  | _ => false

theorem validRailway_of_chunks (cs ds : List Char)
    (h1 : hourChunkOk cs = true) (h2 : minChunkOk ds = true) :
    validRailway (String.mk cs ++ String.mk ds) = true := by
  rcases cs with _ | ⟨a, _ | ⟨b, _ | ⟨c, t⟩⟩⟩ <;> simp [hourChunkOk] at h1
  rcases ds with _ | ⟨x, _ | ⟨y, _ | ⟨z, u⟩⟩⟩ <;> simp [minChunkOk] at h2
  have hdata : (String.mk [a, b] ++ String.mk [x, y]).data = [a, b, x, y] := rfl
  simp only [validRailway, hdata]
  simp [h1.1.1, h1.1.2, h2.1.1, h2.1.2]
  exact ⟨h1.2, h2.2⟩

theorem hourChunk_of_lt (n : Nat) (h : n < 24) :
    hourChunkOk (padStartL 2 '0' (jsNumStrOpt (some (n : Int))).data) = true := by
  interval_cases n <;> decide

theorem minChunk_of_lt (n : Nat) (h : n < 60) :
    minChunkOk (padStartL 2 '0' (jsNumStrOpt (some (n : Int))).data) = true := by
  interval_cases n <;> decide

theorem finishTime_valid (h m : Int) (hh : 0 ≤ h) (hm : 0 ≤ m) :
    validRailway (finishTime (some h, some m)) = true := by
  have h24 : jsModOpt (some h) 24 = some (Int.tmod h 24) := rfl
  have h60 : jsModOpt (some m) 60 = some (Int.tmod m 60) := rfl
  have hhn : 0 ≤ Int.tmod h 24 := Int.tmod_nonneg 24 hh
  have hmn : 0 ≤ Int.tmod m 60 := Int.tmod_nonneg 60 hm
  have hhu : Int.tmod h 24 < 24 := Int.tmod_lt_of_pos h (by norm_num)
  have hmu : Int.tmod m 60 < 60 := Int.tmod_lt_of_pos m (by norm_num)
  have eh : ((Int.tmod h 24).toNat : Int) = Int.tmod h 24 := Int.toNat_of_nonneg hhn
  have em : ((Int.tmod m 60).toNat : Int) = Int.tmod m 60 := Int.toNat_of_nonneg hmn
  have hhb : (Int.tmod h 24).toNat < 24 := by omega
  have hmb : (Int.tmod m 60).toNat < 60 := by omega
  have := validRailway_of_chunks
    (padStartL 2 '0' (jsNumStrOpt (some ((Int.tmod h 24).toNat : Int))).data)
    (padStartL 2 '0' (jsNumStrOpt (some ((Int.tmod m 60).toNat : Int))).data)
    (hourChunk_of_lt _ hhb) (minChunk_of_lt _ hmb)
  rw [eh, em] at this
  simpa [finishTime, h24, h60] using this

/-! ## Claim C1 -/

/-- Claim C1: for every input denoting the wall-clock time 13:30 (a
date-time whose local hour is 13 and local minute is 30, the string
"1:30 PM", the string "13:30", the number 1330 and the fraction 0.5625,
which is 9/16), normalizeTime returns "1330". -/
theorem claim1_normalizeTime_wallclock (d : DateVal)
    (hh : d.hours = 13) (hm : d.minutes = 30) :
    normalizeTime (.date d) = "1330" ∧
    normalizeTime (.str "1:30 PM") = "1330" ∧
    normalizeTime (.str "13:30") = "1330" ∧
    normalizeTime (.num 1330) = "1330" ∧
    normalizeTime (.num (Rat.mk' 9 16 (by decide) (by decide))) = "1330" := by
  refine ⟨?_, by decide, by decide, by decide, by decide⟩
  have hd : normalizeTime (.date d) =
      finishTime (some (d.hours : Int), some (d.minutes : Int)) := rfl
  rw [hd, hh, hm]
  decide

/-- Witness for claim C1 at a concrete date-time value. -/
theorem claim1_witness :
    (⟨13, 30, 2024, 3, 5⟩ : DateVal).hours = 13 ∧
    (⟨13, 30, 2024, 3, 5⟩ : DateVal).minutes = 30 ∧
    normalizeTime (.date ⟨13, 30, 2024, 3, 5⟩) = "1330" :=
  ⟨rfl, rfl, (claim1_normalizeTime_wallclock ⟨13, 30, 2024, 3, 5⟩ rfl rfl).1⟩

/-! ## Claim C5 -/

/-- Claim C5 counterexample: on the string input "12.5" normalizeTime
returns "12NaN", which is neither the empty string nor a valid 4-digit
railway time; the minute slice ".5" parses to NaN and is rendered as
"NaN". -/
theorem claim5_counterexample :
    normalizeTime (.str "12.5") = "12NaN" ∧
    ¬(normalizeTime (.str "12.5") = "" ∨
      validRailway (normalizeTime (.str "12.5")) = true) := by
  decide

/-- Claim C5 as amended: for every input value whose derived hour and
minute components are both non-NaN and nonnegative, normalizeTime
returns either the empty string or a valid 4-digit railway time with
hours 0-23 and minutes 0-59; in particular this holds for every
date-time input and for every number in the interval from zero
(inclusive) to one (exclusive). -/
theorem claim5_amended_range :
    (∀ (v : CellValue) (h m : Int), timeHM v = (some h, some m) → 0 ≤ h → 0 ≤ m →
      normalizeTime v = "" ∨ validRailway (normalizeTime v) = true) ∧
    (∀ d : DateVal, validRailway (normalizeTime (.date d)) = true) ∧
    (∀ q : Rat, ratNonneg q = true → ratLtOne q = true →
      validRailway (normalizeTime (.num q)) = true) := by
  refine ⟨?_, ?_, ?_⟩
  · intro v h m heq hh hm
    by_cases hE : isEmptyInput v = true
    · left
      simp [normalizeTime, hE]
    · right
      have : normalizeTime v = finishTime (timeHM v) := by
        simp [normalizeTime, hE]
      rw [this, heq]
      exact finishTime_valid h m hh hm
  · intro d
    have : normalizeTime (.date d) =
        finishTime (some (d.hours : Int), some (d.minutes : Int)) := rfl
    rw [this]
    exact finishTime_valid _ _ (Int.ofNat_nonneg _) (Int.ofNat_nonneg _)
  · intro q hq hlt
    have hcond : (ratLtOne q ∧ ratNonneg q) = True := by simp [hq, hlt]
    have htm : 0 ≤ roundTimes1440 q := by
      apply Int.fdiv_nonneg
      · have : (0 : Int) ≤ q.num := by
          simpa [ratNonneg] using hq
        have hd : (0 : Int) ≤ (q.den : Int) := Int.ofNat_nonneg _
        nlinarith
      · positivity
    have : normalizeTime (.num q) =
        finishTime (some (Int.fdiv (roundTimes1440 q) 60),
          some (Int.tmod (roundTimes1440 q) 60)) := by
      simp [normalizeTime, isEmptyInput, timeHM, hcond]
    rw [this]
    exact finishTime_valid _ _ (Int.fdiv_nonneg htm (by norm_num))
      (Int.tmod_nonneg 60 htm)

/-- Witness for claim C5 as amended, at the number one half. -/
theorem claim5_witness :
    ratNonneg (Rat.mk' 1 2 (by decide) (by decide)) = true ∧
    ratLtOne (Rat.mk' 1 2 (by decide) (by decide)) = true ∧
    validRailway (normalizeTime (.num (Rat.mk' 1 2 (by decide) (by decide)))) = true :=
  ⟨by decide, by decide,
    claim5_amended_range.2.2 (Rat.mk' 1 2 (by decide) (by decide)) (by decide) (by decide)⟩

/-! ## Claim C9 -/

/-- Claim C9: normalizeDate is total and never raises: empty input
yields "", and a string input that matches neither the canonical
four-digit dash two-digit dash two-digit pattern nor generic calendar
parsing is returned as the original string, trimmed, verbatim. -/
theorem claim9_normalizeDate_total :
    normalizeDate .empty = "" ∧ normalizeDate (.str "") = "" ∧
    (∀ s : String, matchYMD (trimL s.data) = false → jsDateParse (trimL s.data) = none →
      normalizeDate (.str s) = String.mk (trimL s.data)) := by
  refine ⟨rfl, rfl, ?_⟩
  intro s h1 h2
  by_cases hs : s = ""
  · subst hs
    decide
  · simp [normalizeDate, jsFalsy, hs, genericDatePath, h1, h2]

/-- Witness for claim C9 at a concrete unparseable string. -/
theorem claim9_witness :
    matchYMD (trimL " next wednesday ".data) = false ∧
    jsDateParse (trimL " next wednesday ".data) = none ∧
    normalizeDate (.str " next wednesday ") = String.mk (trimL " next wednesday ".data) :=
  ⟨by decide, by decide,
    claim9_normalizeDate_total.2.2 " next wednesday " (by decide) (by decide)⟩

/-! ## Claim C8 -/

/-- Claim C8: placing a session onto a target date, slot and squad and
then immediately staging the resulting record leaves that record in the
staged set with the original id and with the most recent placement's
date, from and to, not the pre-placement values; no record of that id
remains in the placed set. -/
theorem claim8_place_then_stage (st : AppState) (s : Session) (src : DragSource)
    (selectedSquad targetDate : String) (targetSlot : SlotDefinition) :
    (updatedSession s selectedSquad targetDate targetSlot) ∈
      (onDropToParking (onDropToTimetable st s src selectedSquad targetDate targetSlot)
        (updatedSession s selectedSquad targetDate targetSlot) .timetable).parkingLot ∧
    (updatedSession s selectedSquad targetDate targetSlot).id = s.id ∧
    (updatedSession s selectedSquad targetDate targetSlot).date = targetDate ∧
    (updatedSession s selectedSquad targetDate targetSlot).«from» = targetSlot.«from» ∧
    (updatedSession s selectedSquad targetDate targetSlot).«to» = targetSlot.«to» ∧
    ∀ t ∈ (onDropToParking (onDropToTimetable st s src selectedSquad targetDate targetSlot)
        (updatedSession s selectedSquad targetDate targetSlot) .timetable).sessions,
      t.id ≠ s.id := by
  refine ⟨?_, rfl, rfl, rfl, rfl, ?_⟩
  · simp [onDropToParking]
  · intro t ht
    simp only [onDropToParking, List.mem_filter] at ht
    simpa [updatedSession] using ht.2

/-! ## Import lemmas -/

theorem importRows_cons (squad : String) (r : Row) (rest : List Row)
    (last : String) (n : Nat) :
    importRows squad (r :: rest) last n =
      if rowLen r < 3 then importRows squad rest last n
      else if headerSkip r then importRows squad rest last n
      else if normalizeTime (cellAt r 2) ≠ "" ∧
          (if normalizeDate (cellAt r 1) = "" then last else normalizeDate (cellAt r 1)) ≠ "" then
        rowSession squad n
          (if normalizeDate (cellAt r 1) = "" then last else normalizeDate (cellAt r 1))
          (normalizeTime (cellAt r 2)) (normalizeTime (cellAt r 3)) r ::
          importRows squad rest
            (if normalizeDate (cellAt r 1) = "" then last else normalizeDate (cellAt r 1))
            (n + 1)
      else importRows squad rest last n := rfl

theorem trackerRows_cons (r : Row) (rest : List Row) (last : String) :
    trackerRows (r :: rest) last =
      if rowLen r < 3 then trackerRows rest last
      else if headerSkip r then trackerRows rest last
      else if normalizeTime (cellAt r 2) ≠ "" ∧
          (if normalizeDate (cellAt r 1) = "" then last else normalizeDate (cellAt r 1)) ≠ "" then
        trackerRows rest
          (if normalizeDate (cellAt r 1) = "" then last else normalizeDate (cellAt r 1))
      else trackerRows rest last := rfl

theorem getD_getLast?_cons {β : Type} (l : List β) (d e : β) :
    ((d :: l).getLast?).getD e = (l.getLast?).getD d := by
  induction l generalizing d e with
  | nil => simp
  | cons b bs ih => rw [List.getLast?_cons_cons, ih b e, ih b d]

theorem importRows_fields (squad : String) (rows : List Row) :
    ∀ (last : String) (n : Nat) (s : Session),
      s ∈ importRows squad rows last n → s.«from» ≠ "" ∧ s.date ≠ "" := by
  induction rows with
  | nil =>
    intro last n s h
    simp [importRows] at h
  | cons r rest ih =>
    intro last n s h
    rw [importRows_cons] at h
    split at h
    · exact ih _ _ _ h
    split at h
    · exact ih _ _ _ h
    by_cases hcond : normalizeTime (cellAt r 2) ≠ "" ∧
        (if normalizeDate (cellAt r 1) = "" then last else normalizeDate (cellAt r 1)) ≠ ""
    · rw [if_pos hcond] at h
      rcases List.mem_cons.mp h with hs | hs
      · subst hs
        exact ⟨hcond.1, hcond.2⟩
      · exact ih _ _ _ hs
    · rw [if_neg hcond] at h
      exact ih _ _ _ h

/-! ## Claim C6 -/

/-- Claim C6: no import row whose resolved from or resolved date is
empty produces a Session; every Session the importer places in the
collection has non-empty from and non-empty date. -/
theorem claim6_import_invariant (sheets : List (List Row)) (s : Session)
    (hmem : s ∈ parseExcelFile sheets) : s.«from» ≠ "" ∧ s.date ≠ "" := by
  unfold parseExcelFile at hmem
  revert hmem
  generalize 0 = n
  induction sheets generalizing n with
  | nil =>
    intro hmem
    simp [importSheets] at hmem
  | cons sh rest ih =>
    intro hmem
    rw [importSheets] at hmem
    rcases List.mem_append.mp hmem with hs | hs
    · cases sh with
      | nil => simp [parseSheet] at hs
      | cons r0 rows =>
        rw [show parseSheet (r0 :: rows) n =
            (if extractSquadFromA1 (cellAt r0 0) = "" then []
              else importRows (extractSquadFromA1 (cellAt r0 0)) rows "" n) from rfl] at hs
        split at hs
        · simp at hs
        · exact importRows_fields _ rows "" n s hs
    · exact ih _ hs

/-- The concrete one-sheet workbook for the claim C6 witness. -/
def claim6Book : List (List Row) :=
  [[[.str "Squad 4"],
    [.str "slot", .str "date", .str "from", .str "to"],
    [.str "", .str "2024-01-01", .str "0830", .str "1030", .str "Intro"]]]

/-- Witness for claim C6 at a concrete one-sheet workbook. -/
theorem claim6_witness :
    (⟨0, "4", "2024-01-01", "0830", "1030", "Intro", "", "Unassigned"⟩ : Session) ∈
      parseExcelFile claim6Book ∧
    (⟨0, "4", "2024-01-01", "0830", "1030", "Intro", "", "Unassigned"⟩ : Session).«from» ≠ "" ∧
    (⟨0, "4", "2024-01-01", "0830", "1030", "Intro", "", "Unassigned"⟩ : Session).date ≠ "" :=
  ⟨by decide, claim6_import_invariant claim6Book _ (by decide)⟩

/-! ## Claim C2 -/

/-- The sheet exhibiting the divergence of claim C2: the second data row
resolves the date 2024-01-02 but contributes no session (its from cell
is empty), so the tracker is not advanced there. -/
def c2Sheet : List Row :=
  [[.str "Squad 4"],
    [.str "", .str "2024-01-01", .str "0830", .str "1030"],
    [.str "", .str "2024-01-02", .str "", .str ""],
    [.str "", .str "", .str "0830", .str "1030"]]

/-- Claim C2 counterexample: in c2Sheet the data row before the
blank-date row resolves the date 2024-01-02 via the date normalizer, so
under the claim the blank-date row would inherit 2024-01-02; the code
dates its session 2024-01-01, because the tracker only advances when a
session is constructed and the 2024-01-02 row was dropped for its empty
from time. -/
theorem claim2_counterexample :
    normalizeDate (cellAt ([.str "", .str "2024-01-02", .str "", .str ""] : Row) 1) =
      "2024-01-02" ∧
    normalizeTime (cellAt ([.str "", .str "2024-01-02", .str "", .str ""] : Row) 2) = "" ∧
    normalizeDate (cellAt ([.str "", .str "", .str "0830", .str "1030"] : Row) 1) = "" ∧
    (parseSheet c2Sheet 0).map Session.date = ["2024-01-01", "2024-01-01"] ∧
    ¬∃ s ∈ parseSheet c2Sheet 0, s.date = "2024-01-02" := by
  decide

/-- Claim C2 as amended: a data row whose date cell normalizes to the
empty string resolves to the sheet's last-seen-date tracker, and the
tracker holds the date of the most recently constructed session of the
sheet (not of every row that resolved a date), or the initial empty
value when no session has been constructed yet; the session built for
such a row, when its from time is non-empty and the tracker is
non-empty, carries the tracker's date. -/
theorem claim2_amended_tracker :
    (∀ (rows : List Row) (squad last : String) (n : Nat),
      trackerRows rows last =
        (((importRows squad rows last n).map Session.date).getLast?).getD last) ∧
    (∀ (squad : String) (r : Row) (post : List Row) (last : String) (n : Nat),
      ¬rowLen r < 3 → headerSkip r = false → normalizeDate (cellAt r 1) = "" →
      normalizeTime (cellAt r 2) ≠ "" → last ≠ "" →
      importRows squad (r :: post) last n =
        rowSession squad n last (normalizeTime (cellAt r 2)) (normalizeTime (cellAt r 3)) r ::
          importRows squad post last (n + 1)) := by
  constructor
  · intro rows
    induction rows with
    | nil =>
      intro squad last n
      simp [trackerRows, importRows]
    | cons r rest ih =>
      intro squad last n
      rw [trackerRows_cons, importRows_cons]
      split
      · exact ih squad last n
      split
      · exact ih squad last n
      by_cases hcond : normalizeTime (cellAt r 2) ≠ "" ∧
          (if normalizeDate (cellAt r 1) = "" then last else normalizeDate (cellAt r 1)) ≠ ""
      · rw [if_pos hcond, if_pos hcond, List.map_cons]
        rw [show Session.date (rowSession squad n
            (if normalizeDate (cellAt r 1) = "" then last else normalizeDate (cellAt r 1))
            (normalizeTime (cellAt r 2)) (normalizeTime (cellAt r 3)) r) =
          (if normalizeDate (cellAt r 1) = "" then last else normalizeDate (cellAt r 1)) from rfl]
        rw [getD_getLast?_cons]
        exact ih squad _ (n + 1)
      · rw [if_neg hcond, if_neg hcond]
        exact ih squad last n
  · intro squad r post last n h3 hh hd hf hlast
    rw [importRows_cons, if_neg h3, if_neg (by simp [hh]), hd]
    simp [hf, hlast]

/-- Witness for claim C2 as amended, at a concrete blank-date row. -/
theorem claim2_witness :
    ¬rowLen ([.str "", .str "", .str "0830", .str "1030"] : Row) < 3 ∧
    headerSkip ([.str "", .str "", .str "0830", .str "1030"] : Row) = false ∧
    normalizeDate (cellAt ([.str "", .str "", .str "0830", .str "1030"] : Row) 1) = "" ∧
    normalizeTime (cellAt ([.str "", .str "", .str "0830", .str "1030"] : Row) 2) ≠ "" ∧
    ("2024-01-01" : String) ≠ "" ∧
    importRows "4" [[.str "", .str "", .str "0830", .str "1030"]] "2024-01-01" 0 =
      [rowSession "4" 0 "2024-01-01" "0830" "1030"
        [.str "", .str "", .str "0830", .str "1030"]] := by
  refine ⟨by decide, by decide, by decide, by decide, by decide, ?_⟩
  have := claim2_amended_tracker.2 "4" [.str "", .str "", .str "0830", .str "1030"] []
    "2024-01-01" 0 (by decide) (by decide) (by decide) (by decide) (by decide)
  rw [this]
  decide

/-! ## Claim C7 -/

theorem mem_map_id_filter (l : List Session) (j x : Nat) :
    (x ∈ (l.filter (fun s => s.id ≠ j)).map Session.id) ↔
      x ∈ l.map Session.id ∧ x ≠ j := by
  simp only [List.mem_map, List.mem_filter, decide_eq_true_eq]
  constructor
  · rintro ⟨a, ⟨ha, hne⟩, rfl⟩
    exact ⟨⟨a, ha, rfl⟩, hne⟩
  · rintro ⟨⟨a, ha, rfl⟩, hne⟩
    exact ⟨a, ⟨ha, hne⟩, rfl⟩

theorem map_id_replace (l : List Session) (ds u : Session) (hu : u.id = ds.id) :
    (l.map (fun s => if s.id = ds.id then u else s)).map Session.id =
      l.map Session.id := by
  rw [List.map_map]
  apply List.map_congr_left
  intro a _
  by_cases ha : a.id = ds.id
  · simp [Function.comp, ha, hu]
  · simp [Function.comp, ha]

/-- Claim C7: under the placement operations each session id belongs to
exactly one of the placed and staged sets.  Placing a session dragged
from staging removes its id from the staged set and adds it to the
placed set; re-placing a session dragged from the grid leaves both id
sets unchanged (its record is replaced in place); staging removes the id
from the placed set and adds it to the staged set; discarding removes it
from the staged set.  Each operation preserves disjointness of the two
id sets, and none except discard loses an id or leaves it in both
sets. -/
theorem claim7_placement_invariant (st : AppState) (ds : Session) (sq d : String)
    (slot : SlotDefinition) (sid : Nat) :
    (ds.id ∈ st.parkingLot.map Session.id →
      List.Disjoint (st.sessions.map Session.id) (st.parkingLot.map Session.id) →
      (∀ x, x ∈ (onDropToTimetable st ds .parking sq d slot).sessions.map Session.id ↔
          x ∈ st.sessions.map Session.id ∨ x = ds.id) ∧
      (∀ x, x ∈ (onDropToTimetable st ds .parking sq d slot).parkingLot.map Session.id ↔
          x ∈ st.parkingLot.map Session.id ∧ x ≠ ds.id) ∧
      List.Disjoint ((onDropToTimetable st ds .parking sq d slot).sessions.map Session.id)
        ((onDropToTimetable st ds .parking sq d slot).parkingLot.map Session.id) ∧
      (∀ x, (x ∈ (onDropToTimetable st ds .parking sq d slot).sessions.map Session.id ∨
          x ∈ (onDropToTimetable st ds .parking sq d slot).parkingLot.map Session.id) ↔
          (x ∈ st.sessions.map Session.id ∨ x ∈ st.parkingLot.map Session.id))) ∧
    ((onDropToTimetable st ds .timetable sq d slot).sessions.map Session.id =
        st.sessions.map Session.id ∧
      (onDropToTimetable st ds .timetable sq d slot).parkingLot = st.parkingLot) ∧
    (ds.id ∈ st.sessions.map Session.id →
      List.Disjoint (st.sessions.map Session.id) (st.parkingLot.map Session.id) →
      (∀ x, x ∈ (onDropToParking st ds .timetable).sessions.map Session.id ↔
          x ∈ st.sessions.map Session.id ∧ x ≠ ds.id) ∧
      (∀ x, x ∈ (onDropToParking st ds .timetable).parkingLot.map Session.id ↔
          x ∈ st.parkingLot.map Session.id ∨ x = ds.id) ∧
      List.Disjoint ((onDropToParking st ds .timetable).sessions.map Session.id)
        ((onDropToParking st ds .timetable).parkingLot.map Session.id) ∧
      (∀ x, (x ∈ (onDropToParking st ds .timetable).sessions.map Session.id ∨
          x ∈ (onDropToParking st ds .timetable).parkingLot.map Session.id) ↔
          (x ∈ st.sessions.map Session.id ∨ x ∈ st.parkingLot.map Session.id))) ∧
    ((discardFromParking st sid).sessions = st.sessions ∧
      (∀ x, x ∈ (discardFromParking st sid).parkingLot.map Session.id ↔
          x ∈ st.parkingLot.map Session.id ∧ x ≠ sid) ∧
      (List.Disjoint (st.sessions.map Session.id) (st.parkingLot.map Session.id) →
        List.Disjoint ((discardFromParking st sid).sessions.map Session.id)
          ((discardFromParking st sid).parkingLot.map Session.id))) := by
  refine ⟨?_, ?_, ?_, ?_⟩
  · intro hq hinv
    have hsess : (onDropToTimetable st ds .parking sq d slot).sessions =
        st.sessions ++ [updatedSession ds sq d slot] := rfl
    have hpark : (onDropToTimetable st ds .parking sq d slot).parkingLot =
        st.parkingLot.filter (fun s => s.id ≠ ds.id) := rfl
    have huid : (updatedSession ds sq d slot).id = ds.id := rfl
    have hP : ∀ x, x ∈ (onDropToTimetable st ds .parking sq d slot).sessions.map Session.id ↔
        x ∈ st.sessions.map Session.id ∨ x = ds.id := by
      intro x
      rw [hsess]
      simp [huid, eq_comm]
    have hQ : ∀ x, x ∈ (onDropToTimetable st ds .parking sq d slot).parkingLot.map Session.id ↔
        x ∈ st.parkingLot.map Session.id ∧ x ≠ ds.id := by
      intro x
      rw [hpark]
      exact mem_map_id_filter _ _ _
    refine ⟨hP, hQ, ?_, ?_⟩
    · intro a ha hb
      rcases (hP a).mp ha with h1 | h1
      · exact hinv h1 ((hQ a).mp hb).1
      · exact ((hQ a).mp hb).2 h1
    · intro x
      rw [hP x, hQ x]
      by_cases hx : x = ds.id
      · subst hx
        simp [hq]
      · simp [hx]
  · constructor
    · exact map_id_replace st.sessions ds _ rfl
    · rfl
  · intro hp hinv
    have hsess : (onDropToParking st ds .timetable).sessions =
        st.sessions.filter (fun s => s.id ≠ ds.id) := rfl
    have hpark : (onDropToParking st ds .timetable).parkingLot =
        st.parkingLot ++ [ds] := rfl
    have hP : ∀ x, x ∈ (onDropToParking st ds .timetable).sessions.map Session.id ↔
        x ∈ st.sessions.map Session.id ∧ x ≠ ds.id := by
      intro x
      rw [hsess]
      exact mem_map_id_filter _ _ _
    have hQ : ∀ x, x ∈ (onDropToParking st ds .timetable).parkingLot.map Session.id ↔
        x ∈ st.parkingLot.map Session.id ∨ x = ds.id := by
      intro x
      rw [hpark]
      simp [eq_comm]
    refine ⟨hP, hQ, ?_, ?_⟩
    · intro a ha hb
      rcases (hQ a).mp hb with h1 | h1
      · exact hinv ((hP a).mp ha).1 h1
      · exact ((hP a).mp ha).2 h1
    · intro x
      rw [hP x, hQ x]
      by_cases hx : x = ds.id
      · subst hx
        simp [hp]
      · simp [hx]
  · refine ⟨rfl, ?_, ?_⟩
    · intro x
      exact mem_map_id_filter _ _ _
    · intro hinv a ha hb
      exact hinv ha ((mem_map_id_filter _ _ _).mp hb).1

/-- Placed session for the claim C7 witness. -/
def c7s1 : Session := ⟨1, "4", "2024-01-01", "0830", "1030", "A", "", "M"⟩

/-- Staged session for the claim C7 witness. -/
def c7s2 : Session := ⟨2, "4", "2024-01-02", "1030", "1230", "B", "", "M"⟩

/-- Witness for claim C7: in a concrete disjoint state, placing the
staged session moves its id to the placed set and out of the staged
set. -/
theorem claim7_witness :
    (2 : Nat) ∈ (onDropToTimetable ⟨[c7s1], [c7s2]⟩ c7s2 .parking "4" "2024-01-03"
        ⟨"0830", "1030"⟩).sessions.map Session.id ∧
    ¬((2 : Nat) ∈ (onDropToTimetable ⟨[c7s1], [c7s2]⟩ c7s2 .parking "4" "2024-01-03"
        ⟨"0830", "1030"⟩).parkingLot.map Session.id) := by
  have h := (claim7_placement_invariant ⟨[c7s1], [c7s2]⟩ c7s2 "4" "2024-01-03"
    ⟨"0830", "1030"⟩ 0).1 (by decide)
    (by
      intro a h1 h2
      simp [c7s1, c7s2] at h1 h2
      omega)
  exact ⟨(h.1 2).mpr (Or.inr rfl), fun hx => ((h.2.1 2).mp hx).2 rfl⟩

/-! ## Order lemmas for the sort comparators -/

theorem strLtL_irrefl (as : List Char) : strLtL as as = false := by
  induction as with
  | nil => rfl
  | cons a t ih => simp [strLtL, lt_irrefl, ih]

theorem strLtL_total (as : List Char) :
    ∀ bs, as ≠ bs → strLtL as bs = true ∨ strLtL bs as = true := by
  induction as with
  | nil =>
    intro bs h
    cases bs with
    | nil => exact absurd rfl h
    | cons b t => left; rfl
  | cons a t ih =>
    intro bs h
    cases bs with
    | nil => right; rfl
    | cons b u =>
      rcases lt_trichotomy a b with hab | hab | hab
      · left; simp [strLtL, hab]
      · subst hab
        have ht : t ≠ u := fun he => h (by rw [he])
        rcases ih u ht with h1 | h1
        · left; simp [strLtL, lt_irrefl, h1]
        · right; simp [strLtL, lt_irrefl, h1]
      · right; simp [strLtL, hab]

theorem strLtL_trans (as : List Char) :
    ∀ bs cs, strLtL as bs = true → strLtL bs cs = true → strLtL as cs = true := by
  induction as with
  | nil =>
    intro bs cs h1 h2
    cases bs with
    | nil => simp [strLtL] at h1
    | cons b u =>
      cases cs with
      | nil => simp [strLtL] at h2
      | cons c w => rfl
  | cons a t ih =>
    intro bs cs h1 h2
    cases bs with
    | nil => simp [strLtL] at h1
    | cons b u =>
      cases cs with
      | nil => simp [strLtL] at h2
      | cons c w =>
        rcases lt_trichotomy a b with hab | hab | hab
        · rcases lt_trichotomy b c with hbc | hbc | hbc
          · simp [strLtL, lt_trans hab hbc]
          · subst hbc
            simp [strLtL, hab]
          · simp [strLtL, hbc, not_lt_of_lt hbc] at h2
        · subst hab
          rcases lt_trichotomy a c with hac | hac | hac
          · simp [strLtL, hac]
          · subst hac
            simp [strLtL, lt_irrefl] at h1 h2 ⊢
            exact ih u w h1 h2
          · simp [strLtL, lt_irrefl] at h1
            simp [strLtL, hac, not_lt_of_lt hac] at h2
        · simp [strLtL, hab, not_lt_of_lt hab] at h1

theorem string_eq_of_data_eq {s t : String} (h : s.data = t.data) : s = t := by
  cases s
  cases t
  exact congrArg String.mk h

theorem sessLE_total (a b : Session) : sessLE a b = true ∨ sessLE b a = true := by
  unfold sessLE
  by_cases hd : a.date = b.date
  · rw [if_pos hd, if_pos hd.symm]
    rcases hfa : fromKey a with _ | x <;> rcases hfb : fromKey b with _ | y <;> simp
    exact Int.le_total x y
  · rw [if_neg hd, if_neg (Ne.symm hd)]
    exact strLtL_total a.date.data b.date.data
      (fun he => hd (string_eq_of_data_eq he))

theorem sessLE_trans (a b c : Session)
    (ha : (fromKey a).isSome = true) (hb : (fromKey b).isSome = true)
    (hc : (fromKey c).isSome = true) :
    sessLE a b = true → sessLE b c = true → sessLE a c = true := by
  rcases Option.isSome_iff_exists.mp ha with ⟨x, hx⟩
  rcases Option.isSome_iff_exists.mp hb with ⟨y, hy⟩
  rcases Option.isSome_iff_exists.mp hc with ⟨z, hz⟩
  intro h1 h2
  unfold sessLE at h1 h2 ⊢
  by_cases hab : a.date = b.date <;> by_cases hbc : b.date = c.date
  · have hac : a.date = c.date := hab.trans hbc
    rw [if_pos hab] at h1
    rw [if_pos hbc] at h2
    rw [if_pos hac]
    rw [hx, hy] at h1
    rw [hy, hz] at h2
    rw [hx, hz]
    simp only [decide_eq_true_eq] at h1 h2 ⊢
    omega
  · have hac : a.date ≠ c.date := fun he => hbc (hab.symm.trans he)
    rw [if_neg hbc] at h2
    rw [if_neg hac]
    have : a.date.data = b.date.data := by rw [hab]
    rw [this]
    exact h2
  · have hac : a.date ≠ c.date := fun he => hab (he.trans hbc.symm)
    rw [if_neg hab] at h1
    rw [if_neg hac]
    have : b.date.data = c.date.data := by rw [hbc]
    rw [this] at h1
    exact h1
  · rw [if_neg hab] at h1
    rw [if_neg hbc] at h2
    by_cases hac : a.date = c.date
    · exfalso
      have : a.date.data = c.date.data := by rw [hac]
      rw [this] at h1
      have := strLtL_trans c.date.data b.date.data c.date.data h1 h2
      rw [strLtL_irrefl] at this
      exact Bool.false_ne_true this
    · rw [if_neg hac]
      exact strLtL_trans a.date.data b.date.data c.date.data h1 h2

theorem slotLE_total (a b : String) : slotLE a b = true ∨ slotLE b a = true := by
  unfold slotLE
  rcases hfa : jsParseIntS a with _ | x <;> rcases hfb : jsParseIntS b with _ | y <;> simp
  exact Int.le_total x y

theorem slotLE_trans (a b c : String)
    (ha : (jsParseIntS a).isSome = true) (hb : (jsParseIntS b).isSome = true)
    (hc : (jsParseIntS c).isSome = true) :
    slotLE a b = true → slotLE b c = true → slotLE a c = true := by
  rcases Option.isSome_iff_exists.mp ha with ⟨x, hx⟩
  rcases Option.isSome_iff_exists.mp hb with ⟨y, hy⟩
  rcases Option.isSome_iff_exists.mp hc with ⟨z, hz⟩
  intro h1 h2
  unfold slotLE at h1 h2 ⊢
  rw [hx, hy] at h1
  rw [hy, hz] at h2
  rw [hx, hz]
  simp only [decide_eq_true_eq] at h1 h2 ⊢
  omega

/-! ## Lemmas about the stable sort -/

theorem jsSortInsert_perm (le : α → α → Bool) (x : α) (l : List α) :
    (jsSortInsert le x l).Perm (x :: l) := by
  induction l with
  | nil => exact List.Perm.refl _
  | cons y ys ih =>
    rw [jsSortInsert]
    by_cases h : le x y = true
    · rw [if_pos h]
    · rw [if_neg h]
      exact (ih.cons y).trans (List.Perm.swap x y ys)

theorem jsSort_perm (le : α → α → Bool) (l : List α) : (jsSort le l).Perm l := by
  induction l with
  | nil => exact List.Perm.refl _
  | cons x xs ih => exact (jsSortInsert_perm le x (jsSort le xs)).trans (ih.cons x)

theorem jsSortInsert_pairwise (le : α → α → Bool) (M : List α)
    (total : ∀ a b, a ∈ M → b ∈ M → le a b = true ∨ le b a = true)
    (trans : ∀ a b c, a ∈ M → b ∈ M → c ∈ M →
      le a b = true → le b c = true → le a c = true)
    (x : α) (hx : x ∈ M) :
    ∀ l : List α, (∀ a ∈ l, a ∈ M) → l.Pairwise (fun a b => le a b = true) →
      (jsSortInsert le x l).Pairwise (fun a b => le a b = true) := by
  intro l
  induction l with
  | nil =>
    intro _ _
    simp [jsSortInsert]
  | cons y ys ih =>
    intro hsub hp
    rcases List.pairwise_cons.mp hp with ⟨hy, hys⟩
    rw [jsSortInsert]
    by_cases hxy : le x y = true
    · rw [if_pos hxy]
      refine List.pairwise_cons.mpr ⟨?_, hp⟩
      intro z hz
      rcases List.mem_cons.mp hz with rfl | hz
      · exact hxy
      · exact trans x y z hx (hsub y (.head _)) (hsub z (.tail _ hz)) hxy (hy z hz)
    · rw [if_neg hxy]
      refine List.pairwise_cons.mpr
        ⟨?_, ih (fun a ha => hsub a (.tail _ ha)) hys⟩
      intro z hz
      have hz' := (jsSortInsert_perm le x ys).mem_iff.mp hz
      rcases List.mem_cons.mp hz' with rfl | hz'
      · rcases total z y hx (hsub y (.head _)) with h | h
        · exact absurd h hxy
        · exact h
      · exact hy z hz'

theorem jsSort_pairwise (le : α → α → Bool) (M : List α)
    (total : ∀ a b, a ∈ M → b ∈ M → le a b = true ∨ le b a = true)
    (trans : ∀ a b c, a ∈ M → b ∈ M → c ∈ M →
      le a b = true → le b c = true → le a c = true) :
    ∀ l : List α, (∀ a ∈ l, a ∈ M) →
      (jsSort le l).Pairwise (fun a b => le a b = true) := by
  intro l
  induction l with
  | nil =>
    intro _
    simp [jsSort]
  | cons x xs ih =>
    intro hsub
    rw [jsSort]
    exact jsSortInsert_pairwise le M total trans x (hsub x (.head _)) (jsSort le xs)
      (fun a ha => hsub a (.tail _ ((jsSort_perm le xs).mem_iff.mp ha)))
      (ih fun a ha => hsub a (.tail _ ha))

/-! ## Claim C3 -/

/-- The serialized fields of an export data row apart from the slot
number. -/
def exRowFields (r : ExportRow) : String × String × String × String × String × String :=
  (r.date, r.«from», r.«to», r.course_id, r.lu_id, r.mentor_id)

/-- The serialized fields a session contributes to its data row. -/
def sessFields (s : Session) : String × String × String × String × String × String :=
  (s.date, s.«from», s.«to», s.course_id, s.lu_id, s.mentor_id)

theorem assignSlots_fields : ∀ (l : List Session) (d : String) (c : Nat),
    (assignSlots l d c).map exRowFields = l.map sessFields := by
  intro l
  induction l with
  | nil => intro d c; rfl
  | cons s rest ih =>
    intro d c
    rw [assignSlots, List.map_cons, List.map_cons, ih]
    rfl

theorem assignSlots_head : ∀ (l : List Session) (d : String) (c : Nat) (r : ExportRow),
    (assignSlots l d c).head? = some r → r.slot = if r.date = d then c + 1 else 1 := by
  intro l d c r h
  cases l with
  | nil => simp [assignSlots] at h
  | cons s rest =>
    rw [assignSlots] at h
    simp only [List.head?_cons, Option.some.injEq] at h
    subst h
    rfl

theorem assignSlots_chain (l : List Session) : ∀ (d : String) (c : Nat),
    (assignSlots l d c).Chain'
      (fun r r' => r'.slot = if r'.date = r.date then r.slot + 1 else 1) := by
  induction l with
  | nil => intro d c; simp [assignSlots]
  | cons s rest ih =>
    intro d c
    rw [assignSlots]
    rw [List.chain'_cons']
    refine ⟨?_, ih s.date _⟩
    intro y hy
    exact assignSlots_head rest s.date (if s.date = d then c + 1 else 1) y hy

/-- Claim C3: for every session list and squad selector, the export
emits exactly one data row per session whose squad number equals the
selector under case-insensitive string comparison (the rows carry
exactly those sessions' fields); the rows are ordered by date
lexicographically and, within a date, by from interpreted as an integer;
each row's slot number is 1 on the first row and whenever its date
differs from the previous row's, and otherwise is one more than the
previous row's.  The statement is confined to the inputs its phrases
presuppose and on which the embedding provably coincides with the host:
every filtered session's from parses as an integer (a NaN comparator
leaves the host sort unspecified), every filtered session's date is a
canonical 4-digit dash 2-digit dash 2-digit string (on which any
localeCompare collation coincides with the ordinal order; elsewhere the
collation is locale-defined), and the squad numbers and selector are
ASCII (on which the modelled case folding coincides with the host's
Unicode folding). -/
theorem claim3_export_rows (sessions : List Session) (squadId : SquadId)
    (hp : ∀ s ∈ exportFilter sessions squadId, (fromKey s).isSome = true)
    (hdates : ∀ s ∈ exportFilter sessions squadId, matchYMD s.date.data = true)
    (hascii : (∀ s ∈ sessions, asciiStr s.squad_number = true) ∧
      asciiStr squadId.toJSString = true) :
    (sortExport sessions squadId).Perm (exportFilter sessions squadId) ∧
    (exportDataRows sessions squadId).map exRowFields =
      (sortExport sessions squadId).map sessFields ∧
    (sortExport sessions squadId).Pairwise (fun a b =>
      strLtL a.date.data b.date.data = true ∨
        (a.date = b.date ∧ ∃ x y, fromKey a = some x ∧ fromKey b = some y ∧ x ≤ y)) ∧
    (∀ r, (exportDataRows sessions squadId).head? = some r → r.slot = 1) ∧
    (exportDataRows sessions squadId).Chain'
      (fun r r' => r'.slot = if r'.date = r.date then r.slot + 1 else 1) ∧
    (∀ s ∈ sortExport sessions squadId, matchYMD s.date.data = true) := by
  have hperm : (sortExport sessions squadId).Perm (exportFilter sessions squadId) :=
    jsSort_perm sessLE (exportFilter sessions squadId)
  refine ⟨hperm, assignSlots_fields _ _ _, ?_, ?_, assignSlots_chain _ _ _,
    fun s hs => hdates s (hperm.mem_iff.mp hs)⟩
  · have hs : (sortExport sessions squadId).Pairwise (fun a b => sessLE a b = true) :=
      jsSort_pairwise sessLE (exportFilter sessions squadId)
        (fun a b _ _ => sessLE_total a b)
        (fun a b c ha hb hc => sessLE_trans a b c (hp a ha) (hp b hb) (hp c hc))
        (exportFilter sessions squadId) (fun a ha => ha)
    refine hs.imp_of_mem ?_
    intro a b ha hb hle
    have ha' := hp a (hperm.mem_iff.mp ha)
    have hb' := hp b (hperm.mem_iff.mp hb)
    rcases Option.isSome_iff_exists.mp ha' with ⟨x, hx⟩
    rcases Option.isSome_iff_exists.mp hb' with ⟨y, hy⟩
    unfold sessLE at hle
    by_cases hd : a.date = b.date
    · rw [if_pos hd, hx, hy] at hle
      simp only [decide_eq_true_eq] at hle
      exact Or.inr ⟨hd, x, y, hx, hy, hle⟩
    · rw [if_neg hd] at hle
      exact Or.inl hle
  · intro r h
    have := assignSlots_head (sortExport sessions squadId) "" 0 r h
    simpa using this

/-- Session list for the claim C3 witness: the spec's export example,
three sessions on the second day and one on the first, plus a session of
another squad. -/
def c3Sessions : List Session :=
  [⟨0, "4", "2024-01-02", "1030", "1230", "B", "", "M"⟩,
    ⟨1, "4", "2024-01-01", "0900", "1000", "A", "", "M"⟩,
    ⟨2, "4", "2024-01-02", "0830", "1030", "C", "", "M"⟩,
    ⟨3, "5", "2024-01-01", "0830", "1030", "D", "", "M"⟩,
    ⟨4, "4", "2024-01-02", "1330", "1530", "E", "", "M"⟩]

/-- Witness for claim C3 at the spec's export example, exporting for the
number squad selector 4 against string squad numbers. -/
theorem claim3_witness :
    (∀ s ∈ exportFilter c3Sessions (.numId 4), (fromKey s).isSome = true) ∧
    (∀ s ∈ exportFilter c3Sessions (.numId 4), matchYMD s.date.data = true) ∧
    ((∀ s ∈ c3Sessions, asciiStr s.squad_number = true) ∧
      asciiStr (SquadId.numId 4).toJSString = true) ∧
    (sortExport c3Sessions (.numId 4)).Perm (exportFilter c3Sessions (.numId 4)) ∧
    (exportDataRows c3Sessions (.numId 4)).map exRowFields =
      (sortExport c3Sessions (.numId 4)).map sessFields ∧
    (∀ r, (exportDataRows c3Sessions (.numId 4)).head? = some r → r.slot = 1) := by
  have h := claim3_export_rows c3Sessions (.numId 4) (by decide) (by decide)
    ⟨by decide, by decide⟩
  exact ⟨by decide, by decide, ⟨by decide, by decide⟩, h.1, h.2.1, h.2.2.2.1⟩

/-! ## Slot-map lemmas -/

theorem getLast?_cons_eq {β : Type} (a : β) (l : List β) :
    (a :: l).getLast? = some ((l.getLast?).getD a) := by
  induction l generalizing a with
  | nil => rfl
  | cons b bs ih =>
    rw [List.getLast?_cons_cons, ih b]
    rfl

theorem lookup_cons_unfold (a k v : String) (rest : List (String × String)) :
    List.lookup a ((k, v) :: rest) = if a = k then some v else List.lookup a rest := by
  by_cases h : a = k
  · simp [List.lookup, h]
  · have hb : (a == k) = false := beq_eq_false_iff_ne.mpr h
    simp [List.lookup, hb, h]

theorem lookup_slotMapInsert (k v k' : String) (m : List (String × String)) :
    (slotMapInsert k v m).lookup k' = if k' = k then some v else m.lookup k' := by
  induction m with
  | nil =>
    show List.lookup k' [(k, v)] = _
    rw [lookup_cons_unfold]
  | cons p rest ih =>
    rcases p with ⟨k1, v1⟩
    rw [slotMapInsert]
    by_cases h1 : k1 = k
    · rw [if_pos h1]
      rw [lookup_cons_unfold, lookup_cons_unfold]
      by_cases h2 : k' = k
      · rw [if_pos h2, if_pos h2]
      · rw [if_neg h2, if_neg h2, if_neg (fun he => h2 (he.trans h1))]
    · rw [if_neg h1]
      rw [lookup_cons_unfold, lookup_cons_unfold]
      by_cases h2 : k' = k1
      · have hk' : k' ≠ k := fun he => h1 (h2 ▸ he)
        rw [if_pos h2, if_neg hk', if_pos h2]
      · rw [if_neg h2, if_neg h2, ih]

theorem lookup_mem_keys (m : List (String × String)) (k : String) :
    (∃ v, m.lookup k = some v) ↔ k ∈ m.map Prod.fst := by
  induction m with
  | nil => simp [List.lookup]
  | cons p rest ih =>
    rcases p with ⟨k1, v1⟩
    rw [List.map_cons, lookup_cons_unfold]
    by_cases h : k = k1
    · simp [h]
    · simp only [if_neg h, List.mem_cons]
      rw [ih]
      simp [h]

theorem keys_slotMapInsert (k v : String) (m : List (String × String)) :
    (slotMapInsert k v m).map Prod.fst =
      if k ∈ m.map Prod.fst then m.map Prod.fst else m.map Prod.fst ++ [k] := by
  induction m with
  | nil => simp [slotMapInsert]
  | cons p rest ih =>
    rcases p with ⟨k1, v1⟩
    rw [slotMapInsert]
    by_cases h1 : k1 = k
    · subst h1
      simp
    · rw [if_neg h1]
      have hne : k ≠ k1 := fun he => h1 he.symm
      by_cases h2 : k ∈ rest.map Prod.fst
      · have hmem : k ∈ ((k1, v1) :: rest).map Prod.fst := by
          simp [h2]
        rw [if_pos hmem]
        simp [ih, h2]
      · have hmem : ¬k ∈ ((k1, v1) :: rest).map Prod.fst := by
          simp [h2, hne]
        rw [if_neg hmem]
        simp [ih, h2]

theorem slotMapInsert_ne_nil (k v : String) (m : List (String × String)) :
    slotMapInsert k v m ≠ [] := by
  cases m with
  | nil => simp [slotMapInsert]
  | cons p rest =>
    rcases p with ⟨k1, v1⟩
    rw [slotMapInsert]
    by_cases h : k1 = k
    · rw [if_pos h]; simp
    · rw [if_neg h]; simp

theorem buildSlotMapAux_const (l : List Session) :
    ∀ m, (∀ s ∈ l, ¬(s.«from» ≠ "" ∧ s.«to» ≠ "")) → buildSlotMapAux l m = m := by
  induction l with
  | nil => intro m _; rfl
  | cons s rest ih =>
    intro m h
    rw [buildSlotMapAux, if_neg (h s (.head _))]
    exact ih m (fun a ha => h a (.tail _ ha))

theorem buildSlotMapAux_nil (l : List Session) :
    ∀ m, buildSlotMapAux l m = [] → m = [] ∧ ∀ s ∈ l, ¬(s.«from» ≠ "" ∧ s.«to» ≠ "") := by
  induction l with
  | nil =>
    intro m h
    exact ⟨h, by simp⟩
  | cons s rest ih =>
    intro m h
    rw [buildSlotMapAux] at h
    by_cases hP : s.«from» ≠ "" ∧ s.«to» ≠ ""
    · rw [if_pos hP] at h
      exact absurd (ih _ h).1 (slotMapInsert_ne_nil _ _ _)
    · rw [if_neg hP] at h
      rcases ih _ h with ⟨hm, hrest⟩
      refine ⟨hm, ?_⟩
      intro a ha
      rcases List.mem_cons.mp ha with rfl | ha
      · exact hP
      · exact hrest a ha

theorem buildSlotMapAux_lookup (l : List Session) :
    ∀ (m : List (String × String)) (k : String), k ≠ "" →
      (buildSlotMapAux l m).lookup k =
        match ((l.filter (fun s => s.«from» = k ∧ s.«to» ≠ "")).map Session.«to»).getLast? with
        | some v => some v
        | none => m.lookup k := by
  induction l with
  | nil =>
    intro m k _
    simp [buildSlotMapAux]
  | cons s rest ih =>
    intro m k hk
    rw [buildSlotMapAux]
    by_cases hPk : s.«from» = k ∧ s.«to» ≠ ""
    · have hP : s.«from» ≠ "" ∧ s.«to» ≠ "" := ⟨hPk.1 ▸ hk, hPk.2⟩
      rw [if_pos hP, ih _ k hk]
      rw [List.filter_cons, if_pos (by simpa using hPk), List.map_cons, getLast?_cons_eq]
      rw [lookup_slotMapInsert, if_pos hPk.1.symm]
      rcases htos : ((rest.filter _).map Session.«to»).getLast? with _ | v <;> simp [htos]
    · by_cases hP : s.«from» ≠ "" ∧ s.«to» ≠ ""
      · rw [if_pos hP, ih _ k hk]
        rw [List.filter_cons, if_neg (by simpa using hPk)]
        have hkf : k ≠ s.«from» := fun he => hPk ⟨he.symm, hP.2⟩
        rw [lookup_slotMapInsert, if_neg hkf]
      · rw [if_neg hP, ih _ k hk]
        rw [List.filter_cons, if_neg (by
          simp only [decide_eq_true_eq]
          intro hc
          exact hP ⟨hc.1 ▸ hk, hc.2⟩)]

theorem buildSlotMapAux_keys_nodup (l : List Session) :
    ∀ m, ((m.map Prod.fst).Nodup) → (((buildSlotMapAux l m).map Prod.fst).Nodup) := by
  induction l with
  | nil => intro m h; exact h
  | cons s rest ih =>
    intro m h
    rw [buildSlotMapAux]
    by_cases hP : s.«from» ≠ "" ∧ s.«to» ≠ ""
    · rw [if_pos hP]
      apply ih
      rw [keys_slotMapInsert]
      by_cases hnm : s.«from» ∈ m.map Prod.fst
      · rw [if_pos hnm]
        exact h
      · rw [if_neg hnm]
        rw [List.nodup_append]
        exact ⟨h, List.nodup_singleton _, by
          intro a ha hb
          rw [List.mem_singleton] at hb
          exact hnm (hb ▸ ha)⟩
    · rw [if_neg hP]
      exact ih m h

theorem buildSlotMapAux_keys_ne_empty (l : List Session) :
    ∀ m, (∀ k ∈ m.map Prod.fst, k ≠ "") →
      ∀ k ∈ (buildSlotMapAux l m).map Prod.fst, k ≠ "" := by
  induction l with
  | nil => intro m h; exact h
  | cons s rest ih =>
    intro m h
    rw [buildSlotMapAux]
    by_cases hP : s.«from» ≠ "" ∧ s.«to» ≠ ""
    · rw [if_pos hP]
      apply ih
      intro k hk
      rw [keys_slotMapInsert] at hk
      by_cases hnm : s.«from» ∈ m.map Prod.fst
      · rw [if_pos hnm] at hk
        exact h k hk
      · rw [if_neg hnm] at hk
        rcases List.mem_append.mp hk with hk | hk
        · exact h k hk
        · rw [List.mem_singleton] at hk
          exact hk ▸ hP.1
    · rw [if_neg hP]
      exact ih m h

/-! ## Claim C4 -/

/-- A session with a non-empty from but empty to, exhibiting the
divergence of claim C4. -/
def c4Session : Session := ⟨0, "4", "2024-01-01", "0830", "", "C", "", "M"⟩

/-- Claim C4 counterexample: a session collection whose only session has
the non-empty from value "0830" but an empty to.  The claim predicts one
SlotDefinition for "0830" with its to taken from that last session
(empty); the code requires to to be non-empty as well, finds no slot,
and returns the four defaults. -/
theorem claim4_counterexample :
    c4Session.«from» = "0830" ∧ c4Session.«from» ≠ "" ∧
    dynamicTimeSlots [c4Session] = defaultSlots ∧
    (dynamicTimeSlots [c4Session]).length = 4 ∧
    dynamicTimeSlots [c4Session] ≠ [⟨"0830", ""⟩] := by
  decide

/-- Claim C4 as amended: the slot map collects one entry per distinct
from value occurring in a session with BOTH from and to non-empty, the
entry's value being the to of the last such session bearing that from;
dynamicTimeSlots returns the four default slots exactly when no session
has both fields non-empty, and otherwise returns exactly the slots
whose from maps to their to, with pairwise-distinct from values, in
nondecreasing order of the integer value of from whenever every derived
from value parses as an integer. -/
theorem claim4_amended_slots (sessions : List Session) :
    (buildSlotMap sessions = [] ↔ ∀ s ∈ sessions, s.«from» = "" ∨ s.«to» = "") ∧
    (buildSlotMap sessions = [] → dynamicTimeSlots sessions = defaultSlots) ∧
    (∀ k, k ≠ "" → (buildSlotMap sessions).lookup k =
      ((sessions.filter (fun s => s.«from» = k ∧ s.«to» ≠ "")).map Session.«to»).getLast?) ∧
    (buildSlotMap sessions ≠ [] → ∀ sl : SlotDefinition,
      sl ∈ dynamicTimeSlots sessions ↔
        (buildSlotMap sessions).lookup sl.«from» = some sl.«to») ∧
    ((dynamicTimeSlots sessions).map SlotDefinition.«from»).Nodup ∧
    ((∀ k ∈ (buildSlotMap sessions).map Prod.fst, (jsParseIntS k).isSome = true) →
      (dynamicTimeSlots sessions).Pairwise
        (fun a b => slotLE a.«from» b.«from» = true)) := by
  have hB : buildSlotMap sessions = [] → dynamicTimeSlots sessions = defaultSlots := by
    intro h
    simp [dynamicTimeSlots, buildSlotMap] at h ⊢
    simp [h]
  have hdyn : buildSlotMap sessions ≠ [] →
      dynamicTimeSlots sessions =
        (jsSort slotLE ((buildSlotMap sessions).map Prod.fst)).map
          (fun k => ⟨k, ((buildSlotMap sessions).lookup k).getD ""⟩) := by
    intro hne
    have hlen : ¬(buildSlotMap sessions).length = 0 :=
      fun h0 => hne (List.length_eq_zero.mp h0)
    simp only [dynamicTimeSlots]
    rw [if_neg hlen]
  refine ⟨?_, hB, ?_, ?_, ?_, ?_⟩
  · constructor
    · intro h s hs
      have := (buildSlotMapAux_nil sessions [] h).2 s hs
      tauto
    · intro h
      exact buildSlotMapAux_const sessions [] (fun s hs => by have := h s hs; tauto)
  · intro k hk
    have := buildSlotMapAux_lookup sessions [] k hk
    unfold buildSlotMap
    rw [this]
    rcases h2 : ((sessions.filter _).map Session.«to»).getLast? with _ | v <;>
      simp [List.lookup]
  · intro hne sl
    rw [hdyn hne]
    constructor
    · intro h
      rcases List.mem_map.mp h with ⟨k, hk, hEq⟩
      have hkkeys : k ∈ (buildSlotMap sessions).map Prod.fst :=
        (jsSort_perm _ _).mem_iff.mp hk
      rcases (lookup_mem_keys _ k).mpr hkkeys with ⟨v, hv⟩
      rw [← hEq]
      simp [hv]
    · intro h
      have hkeys : sl.«from» ∈ (buildSlotMap sessions).map Prod.fst :=
        (lookup_mem_keys _ _).mp ⟨sl.«to», h⟩
      refine List.mem_map.mpr ⟨sl.«from», (jsSort_perm _ _).mem_iff.mpr hkeys, ?_⟩
      rcases sl with ⟨f, t⟩
      simp only at h
      simp [h]
  · by_cases hnil : buildSlotMap sessions = []
    · rw [hB hnil]
      decide
    · rw [hdyn hnil, List.map_map]
      have hcomp : (SlotDefinition.«from» ∘
          fun k => (⟨k, ((buildSlotMap sessions).lookup k).getD ""⟩ : SlotDefinition)) =
            id := by
        funext k
        rfl
      rw [hcomp, List.map_id]
      exact ((jsSort_perm slotLE _).nodup_iff).mpr
        (buildSlotMapAux_keys_nodup sessions [] (by simp))
  · intro hp
    by_cases hnil : buildSlotMap sessions = []
    · rw [hB hnil]
      decide
    · rw [hdyn hnil]
      rw [List.pairwise_map]
      have := jsSort_pairwise slotLE ((buildSlotMap sessions).map Prod.fst)
        (fun a b _ _ => slotLE_total a b)
        (fun a b c ha hb hc => slotLE_trans a b c (hp a ha) (hp b hb) (hp c hc))
        ((buildSlotMap sessions).map Prod.fst) (fun a ha => ha)
      exact this.imp (fun h => h)

/-- Session list for the claim C4 witness: two sessions with complete
slot ranges, out of numeric order. -/
def c4Sessions : List Session :=
  [⟨0, "4", "2024-01-01", "1330", "1530", "A", "", "M"⟩,
    ⟨1, "4", "2024-01-01", "0830", "1030", "B", "", "M"⟩]

/-- Witness for claim C4 as amended, at a concrete session list. -/
theorem claim4_witness :
    (buildSlotMap c4Sessions).lookup "0830" =
      ((c4Sessions.filter (fun s => s.«from» = "0830" ∧ s.«to» ≠ "")).map
        Session.«to»).getLast? ∧
    ((⟨"0830", "1030"⟩ : SlotDefinition) ∈ dynamicTimeSlots c4Sessions) ∧
    (dynamicTimeSlots c4Sessions).Pairwise
      (fun a b => slotLE a.«from» b.«from» = true) := by
  have h := claim4_amended_slots c4Sessions
  exact ⟨h.2.2.1 "0830" (by decide),
    (h.2.2.2.1 (by decide) ⟨"0830", "1030"⟩).mpr (by decide),
    h.2.2.2.2.2 (by decide)⟩

/-! ## Claim C10 -/

theorem store_read_alloc_same (st : Store) (v : List Session) :
    Store.read (Store.alloc st v).1 (Store.alloc st v).2 = v := by
  simp [Store.alloc, Store.read, List.getD_eq_getElem?_getD,
    List.getElem?_append_right (le_refl st.arrs.length)]

theorem store_read_alloc_lt (st : Store) (v : List Session) (j : Nat)
    (h : j < st.arrs.length) :
    Store.read (Store.alloc st v).1 j = Store.read st j := by
  simp [Store.alloc, Store.read, List.getD_eq_getElem?_getD,
    List.getElem?_append_left h]

theorem store_read_write_same (st : Store) (i : Nat) (v : List Session)
    (h : i < st.arrs.length) :
    Store.read (Store.write st i v) i = v := by
  simp [Store.write, Store.read, List.getD_eq_getElem?_getD,
    List.getElem?_set_self h]

theorem store_read_write_ne (st : Store) (i j : Nat) (v : List Session)
    (h : i ≠ j) :
    Store.read (Store.write st i v) j = Store.read st j := by
  simp [Store.write, Store.read, List.getD_eq_getElem?_getD,
    List.getElem?_set_ne h]

/-- Claim C10: the export does not modify its input.  The filter
allocates a fresh array, the spread copies it, and the in-place sort
mutates only that copy, so after the export the caller's array (and
every Session record in it) reads back unchanged; moreover the produced
sheet equals the pure export of the unchanged input. -/
theorem claim10_export_frame (st : Store) (r : Nat) (squadId : SquadId)
    (hr : r < st.arrs.length) :
    (exportToExcelSt st r squadId).1.read r = st.read r ∧
    (exportToExcelSt st r squadId).2 = exportToExcel (st.read r) squadId := by
  simp only [exportToExcelSt]
  have hlen1 : (Store.alloc st ((st.read r).filter
      (fun s => lowerStr s.squad_number = lowerStr squadId.toJSString))).1.arrs.length =
      st.arrs.length + 1 := by
    simp [Store.alloc]
  constructor
  · rw [store_read_write_ne _ _ _ _ (by
      simp [Store.alloc, hlen1]
      try omega)]
    rw [store_read_alloc_lt _ _ _ (by rw [hlen1]; omega)]
    rw [store_read_alloc_lt _ _ _ hr]
  · rw [store_read_write_same _ _ _ (by
      simp [Store.alloc]
      try omega)]
    rw [store_read_alloc_same]
    rw [store_read_alloc_same]
    rfl

/-- Witness for claim C10 at a concrete one-array store. -/
theorem claim10_witness :
    (0 : Nat) < (Store.mk [c3Sessions]).arrs.length ∧
    (exportToExcelSt ⟨[c3Sessions]⟩ 0 (.numId 4)).1.read 0 =
      Store.read ⟨[c3Sessions]⟩ 0 ∧
    (exportToExcelSt ⟨[c3Sessions]⟩ 0 (.numId 4)).2 =
      exportToExcel (Store.read ⟨[c3Sessions]⟩ 0) (.numId 4) :=
  ⟨by decide, (claim10_export_frame ⟨[c3Sessions]⟩ 0 (.numId 4) (by decide)).1,
    (claim10_export_frame ⟨[c3Sessions]⟩ 0 (.numId 4) (by decide)).2⟩

end ScheduleEditor
